import Mathlib

/-!
# Verification of the llm-grpchat conversation engine and wave throttle

A shallow embedding of `src/lib/conversationEngine.ts` and
`src/lib/waveThrottle.ts`.  Strings are modelled as `List Char`,
JavaScript `Set` objects as insertion-ordered duplicate-free lists,
`Map` objects as association lists, `Date.now()` and `Math.random()`
as explicit parameters, and the `setTimeout` deferred checks as an
explicit list of outstanding timers fired by scheduler events.
-/

namespace GrpChat

/-! ## Primitive string helpers (JS string operations over `List Char`) -/

/-- JS `\w` word characters: `[A-Za-z0-9_]`. -/
def isWordChar (c : Char) : Bool :=
  c.isAlpha || c.isDigit || c = '_'

/-- Whitespace as matched by JS `\s` / removed by `String.trim` (ASCII part). -/
def jsWhitespace (c : Char) : Bool :=
  c = ' ' || c = '\t' || c = '\n' || c = '\r' || c = Char.ofNat 11 || c = Char.ofNat 12

/-- `String.prototype.toLowerCase`. -/
def lcToLower (s : List Char) : List Char := s.map Char.toLower

/-- `String.prototype.trim`. -/
def lcTrim (s : List Char) : List Char :=
  ((s.dropWhile jsWhitespace).reverse.dropWhile jsWhitespace).reverse

/-- Does `s` start with `p` (JS `String.prototype.startsWith`)? -/
def startsWithL : List Char → List Char → Bool
  | _, [] => true
  | [], _ :: _ => false
  | c :: s, d :: p => c = d && startsWithL s p

/-- JS `String.prototype.includes`: `sub` occurs as a contiguous substring. -/
def containsSub (sub : List Char) : List Char → Bool
  | [] => sub.isEmpty
  | c :: rest => startsWithL (c :: rest) sub || containsSub sub rest

/-- Word-boundary (`\b`) test between the last matched character and the rest
of the input: the two sides differ in word-char-ness (end of input counts as
a non-word character). -/
def boundaryOk (lastC : Char) (rest : List Char) : Bool :=
  match rest with
  | [] => isWordChar lastC
  | n :: _ => isWordChar lastC != isWordChar n

/-- Match the remaining characters of a mention tag case-insensitively,
then require a word boundary (`tag` is expected pre-lowercased, as in the
source, which builds the pattern from `shortName.toLowerCase()`). -/
def tagTailMatch (lastC : Char) : List Char → List Char → Bool
  | [], rest => boundaryOk lastC rest
  | _ :: _, [] => false
  | t :: tag, c :: rest => c.toLower = t.toLower && tagTailMatch t tag rest

/-- Does the suffix `s` begin with `@tag\b` (case-insensitive)? -/
def mentionHere (tag : List Char) (s : List Char) : Bool :=
  match s with
  | '@' :: rest => tagTailMatch '@' tag rest
  | _ => false

/-- Does `@tag\b` occur anywhere in the content (the regex
`new RegExp("@" + tag, "i")` with a trailing `\b`)? -/
def hasMention (tag : List Char) : List Char → Bool
  | [] => false
  | c :: rest => mentionHere tag (c :: rest) || hasMention tag rest

/-! ## Data model (`src/types/chat.ts`) -/

structure Model where
  id : String
  name : List Char
  shortName : List Char
deriving DecidableEq

structure Message where
  role : String
  content : List Char
  modelId : Option String
  timestamp : Nat
deriving DecidableEq

structure ResponseDecision where
  shouldRespond : Bool
  delay : Nat
  priority : Nat
deriving DecidableEq

/-! ## Map/Set helpers (JS `Map`/`Set` with insertion order) -/

/-- `Map.get(k) || 0`. -/
def mapGetD (m : List (String × Nat)) (k : String) : Nat :=
  match m.find? (fun p => p.1 == k) with
  | some p => p.2
  | none => 0

/-- `Map.set(k, v)`: update in place if present, else append. -/
def mapSet : List (String × Nat) → String → Nat → List (String × Nat)
  | [], k, v => [(k, v)]
  | (k0, v0) :: rest, k, v =>
    if k0 = k then (k0, v) :: rest else (k0, v0) :: mapSet rest k v

/-- `Set.add`: append if not already a member. -/
def setAdd (l : List String) (x : String) : List String :=
  if l.contains x then l else l ++ [x]

/-- `Set.delete`. -/
def setDel (l : List String) (x : String) : List String :=
  l.filter (fun y => y != x)

/-! ## The conversation engine state (`ConversationEngine` fields).

Two ghost fields make the scheduler's behaviour observable:
`timers` records the outstanding `setTimeout` deferred checks created by
`queueResponse` (each captures the model id and priority; real time only
orders their firing, which the `Event.fireEv` event models
nondeterministically), and `inFlight`/`triggerLog` record which models have
been handed to the `onTriggerResponse` callback and not yet completed. -/

structure QueueEntry where
  modelId : String
  priority : Nat
deriving DecidableEq

structure EngineState where
  cooldowns : List (String × Nat)
  responseQueue : List QueueEntry
  pendingModels : List String
  maxConcurrent : Nat
  currentlyResponding : Int
  consecutiveAIResponses : Nat
  respondersThisMessage : List String
  maxRespondersPerMessage : Nat
  maxConsecutiveAI : Nat
  timers : List QueueEntry
  inFlight : List String
  triggerLog : List String
deriving DecidableEq

def initialEngine : EngineState :=
  { cooldowns := []
    responseQueue := []
    pendingModels := []
    maxConcurrent := 1
    currentlyResponding := 0
    consecutiveAIResponses := 0
    respondersThisMessage := []
    maxRespondersPerMessage := 2
    maxConsecutiveAI := 10
    timers := []
    inFlight := []
    triggerLog := [] }

/-! ## `analyzeForResponse` -/

/-- The `@(here|all)\b` global-mention test. -/
def isGlobalMention (content : List Char) : Bool :=
  hasMention ("here".toList) content || hasMention ("all".toList) content

/-- `mentionPattern.test(content) || isGlobalMention`. -/
def isMentionedB (model : Model) (content : List Char) : Bool :=
  hasMention (lcToLower model.shortName) content || isGlobalMention content

/-- `[...messages].reverse().find(m => m.role === "user")`. -/
def lastUserMessage (messages : List Message) : Option Message :=
  messages.reverse.find? (fun m => m.role == "user")

/-- `messages.some(m => m.modelId === model.id && m.timestamp > lastUserMsg.timestamp)`
guarded by the existence of a last user message. -/
def respondedAfterLastUser (model : Model) (messages : List Message) : Bool :=
  match lastUserMessage messages with
  | none => false
  | some lu =>
    messages.any (fun m => m.modelId == some model.id && decide (lu.timestamp < m.timestamp))

def summaryKeywords : List (List Char) :=
  ["final report".toList, "summary:".toList, "consensus:".toList,
   "conclusion:".toList, "we are done".toList, "analysis stands".toList]

/-- Recent (last five) assistant messages contain a summary keyword. -/
def hasSummaryB (messages : List Message) : Bool :=
  ((messages.drop (messages.length - 5)).filter (fun m => m.role == "assistant")).any
    (fun m => summaryKeywords.any (fun kw => containsSub kw (lcToLower m.content)))

/-- `Math.min(content.length * 15, 2000)`. -/
def readingTimeOf (content : List Char) : Nat :=
  min (content.length * 15) 2000

/-- `ConversationEngine.analyzeForResponse`.  `now` stands for `Date.now()`
and `rand` for the sampled value of `Math.random() * 2000`. -/
def analyzeForResponse (st : EngineState) (now rand : Nat) (model : Model)
    (messages : List Message) (latestMessage : Message)
    (_activeModels : List Model) : ResponseDecision :=
  if latestMessage.modelId == some model.id then
    ⟨false, 0, 0⟩
  else
    let mentioned := isMentionedB model latestMessage.content
    let priority0 : Nat := if mentioned then 100 else 0
    let should0 : Bool := mentioned
    if !mentioned && respondedAfterLastUser model messages then
      ⟨false, 0, 0⟩
    else if hasSummaryB messages && !mentioned then
      ⟨false, 0, 0⟩
    else if decide (now - mapGetD st.cooldowns model.id < 10000) && !mentioned then
      ⟨false, 0, 0⟩
    else
      let sp1 : Bool × Nat :=
        if !should0 && latestMessage.role == "user" then (true, 80)
        else (should0, priority0)
      let sp2 : Bool × Nat :=
        if !sp1.1 && latestMessage.content.contains '?' then (true, 60) else sp1
      ⟨sp2.1, 1500 + rand + readingTimeOf latestMessage.content, sp2.2⟩

/-! ## Scheduler operations -/

/-- Insertion step of `queueResponse`: `findIndex(item => item.priority < priority)`
then `splice`, or `push` when no strictly-lower-priority entry exists. -/
def insertByPriority : List QueueEntry → QueueEntry → List QueueEntry
  | [], e => [e]
  | x :: rest, e =>
    if x.priority < e.priority then e :: x :: rest
    else x :: insertByPriority rest e

/-- `ConversationEngine.triggerResponse`: bump the in-flight counter and hand
the model to the `onTriggerResponse` callback (recorded in the ghost log). -/
def triggerResponse (st : EngineState) (modelId : String) : EngineState :=
  { st with currentlyResponding := st.currentlyResponding + 1
            inFlight := st.inFlight ++ [modelId]
            triggerLog := st.triggerLog ++ [modelId] }

/-- `ConversationEngine.queueResponse`: no-op when already pending, otherwise
add to `pendingModels` and create the deferred check.  `delay` only schedules
the timer in real time; firing order is modelled nondeterministically. -/
def queueResponse (st : EngineState) (modelId : String) (_delay : Nat)
    (priority : Nat) : EngineState :=
  if st.pendingModels.contains modelId then st
  else
    { st with pendingModels := setAdd st.pendingModels modelId
              timers := st.timers ++ [⟨modelId, priority⟩] }

/-- The commit step shared textually by the deferred check: add the model to
`respondersThisMessage` and either begin its generation immediately (when a
concurrency slot is free) or insert it into the priority-ordered queue. -/
def commitResponse (st : EngineState) (modelId : String) (priority : Nat) :
    EngineState :=
  if st.currentlyResponding < (st.maxConcurrent : Int) then
    triggerResponse
      { st with respondersThisMessage := setAdd st.respondersThisMessage modelId }
      modelId
  else
    { st with respondersThisMessage := setAdd st.respondersThisMessage modelId
              responseQueue := insertByPriority st.responseQueue ⟨modelId, priority⟩ }

/-- Body of the `setTimeout` callback inside `queueResponse` (the deferred
check), run when the timer for `(modelId, priority)` fires. -/
def deferredCheck (st : EngineState) (modelId : String) (priority : Nat) :
    EngineState :=
  if !(st.pendingModels.contains modelId) then st
  else if priority < 100 &&
      st.maxRespondersPerMessage ≤ st.respondersThisMessage.length then
    { st with pendingModels := setDel st.pendingModels modelId }
  else if priority < 100 &&
      st.maxConsecutiveAI ≤ st.consecutiveAIResponses then
    { st with pendingModels := setDel st.pendingModels modelId }
  else
    commitResponse st modelId priority

/-- The unconditional first half of `ConversationEngine.completeResponse`:
record the cooldown timestamp, decrement the in-flight counter, remove the
completing model from `pendingModels`, and bump `consecutiveAIResponses`. -/
def completeBookkeeping (st : EngineState) (modelId : String) (now : Nat) :
    EngineState :=
  { st with
    cooldowns := mapSet st.cooldowns modelId now
    currentlyResponding := st.currentlyResponding - 1
    pendingModels := setDel st.pendingModels modelId
    consecutiveAIResponses := st.consecutiveAIResponses + 1
    inFlight := setDel st.inFlight modelId }

/-- The dequeue half of `completeResponse`, applied to the state after
`completeBookkeeping` once `responseQueue = next :: rest`: re-validate the
caps for the popped entry (aborting just that entry when exceeded),
otherwise commit it and begin its generation. -/
def completeDequeue (st1 : EngineState) (next : QueueEntry)
    (rest : List QueueEntry) : EngineState :=
  if next.priority < 100 &&
      st1.maxRespondersPerMessage ≤ st1.respondersThisMessage.length then
    { st1 with responseQueue := rest
               pendingModels := setDel st1.pendingModels next.modelId }
  else if next.priority < 100 &&
      st1.maxConsecutiveAI ≤ st1.consecutiveAIResponses then
    { st1 with responseQueue := rest
               pendingModels := setDel st1.pendingModels next.modelId }
  else
    triggerResponse
      { st1 with responseQueue := rest
                 respondersThisMessage := setAdd st1.respondersThisMessage next.modelId }
      next.modelId

/-- `ConversationEngine.completeResponse`.  `now` stands for `Date.now()`. -/
def completeResponse (st : EngineState) (modelId : String) (now : Nat) :
    EngineState :=
  match (completeBookkeeping st modelId now).responseQueue with
  | [] => completeBookkeeping st modelId now
  | next :: rest => completeDequeue (completeBookkeeping st modelId now) next rest

/-- `ConversationEngine.reset`.  The outstanding `setTimeout` callbacks are not
cancelled (they fizzle at the pending double-check) and running generations
are not stopped, so `timers`, `inFlight` and the ghost log survive. -/
def resetEngine (st : EngineState) : EngineState :=
  { st with cooldowns := []
            responseQueue := []
            pendingModels := []
            currentlyResponding := 0
            consecutiveAIResponses := 0
            respondersThisMessage := [] }

/-- `ConversationEngine.onUserMessage`. -/
def onUserMessageE (st : EngineState) : EngineState :=
  { st with consecutiveAIResponses := 0
            respondersThisMessage := [] }

/-- `ConversationEngine.resetRespondersForNewMessage`. -/
def resetRespondersForNewMessage (st : EngineState) : EngineState :=
  { st with respondersThisMessage := [] }

/-- `ConversationEngine.setMaxConsecutiveAI`. -/
def setMaxConsecutiveAI (st : EngineState) (m : Nat) : EngineState :=
  { st with maxConsecutiveAI := m }

/-- `ConversationEngine.setMaxRespondersPerMessage`. -/
def setMaxRespondersPerMessage (st : EngineState) (m : Nat) : EngineState :=
  { st with maxRespondersPerMessage := m }

/-! ## Scheduler events and traces -/

/-- Observable scheduler events: a `queueResponse` call, the firing of the
`i`-th outstanding deferred check, the completion callback of an in-flight
generation, a new user message, and a reset. -/
inductive Event where
  | queueEv (modelId : String) (delay : Nat) (priority : Nat)
  | fireEv (i : Nat)
  | completeEv (modelId : String) (now : Nat)
  | userEv
  | resetEv
  | setMaxRespEv (n : Nat)
  | setMaxConsecEv (n : Nat)
deriving DecidableEq

def fireTimer (st : EngineState) (i : Nat) : EngineState :=
  match st.timers[i]? with
  | none => st
  | some e =>
    deferredCheck { st with timers := st.timers.eraseIdx i } e.modelId e.priority

/-- One engine step.  `completeEv` is the continuation of a generation the
engine itself started, so it is only enabled for in-flight models. -/
def stepEv (st : EngineState) (e : Event) : EngineState :=
  match e with
  | .queueEv id d p => queueResponse st id d p
  | .fireEv i => fireTimer st i
  | .completeEv id now =>
    if st.inFlight.contains id then completeResponse st id now else st
  | .userEv => onUserMessageE st
  | .resetEv => resetEngine st
  | .setMaxRespEv n => setMaxRespondersPerMessage st n
  | .setMaxConsecEv n => setMaxConsecutiveAI st n

/-- Run a trace of events from the freshly constructed engine. -/
def execTrace (evs : List Event) : EngineState :=
  evs.foldl stepEv initialEngine

/-- Events covered by the scheduler claims: `queueResponse` calls, deferred
checks, and completion callbacks. -/
def SchedEvent : Event → Prop
  | .queueEv _ _ _ => True
  | .fireEv _ => True
  | .completeEv _ _ => True
  | _ => False

instance : DecidablePred SchedEvent := by
  intro e
  cases e <;> simp [SchedEvent] <;> infer_instance

/-- A `queueResponse` call with a non-bypass priority, a deferred check, or a
completion callback. -/
def NonBypassSchedEvent : Event → Prop
  | .queueEv _ _ p => p < 100
  | .fireEv _ => True
  | .completeEv _ _ => True
  | _ => False

instance : DecidablePred NonBypassSchedEvent := by
  intro e
  cases e <;> simp [NonBypassSchedEvent] <;> infer_instance

/-! ## Invariant-level definitions for the scheduler -/

/-- `tokensOf st` collects, in order, the model ids held by outstanding
timers, by the response queue, and by in-flight generations. -/
def tokensOf (st : EngineState) : List String :=
  st.timers.map QueueEntry.modelId ++
    (st.responseQueue.map QueueEntry.modelId ++ st.inFlight)

/-- The pending set lists exactly the models holding a scheduling token
(timer, queue slot, or in-flight slot), and tokens are unique. -/
def InvShape (pending tokens : List String) : Prop :=
  (∀ x, x ∈ pending ↔ x ∈ tokens) ∧ tokens.Nodup ∧ pending.Nodup

def EngineInv (st : EngineState) : Prop :=
  InvShape st.pendingModels (tokensOf st)

/-- Auxiliary invariant for the responder cap: every outstanding timer and
queue entry is non-bypass, and the responder set respects the cap. -/
def CapInv (st : EngineState) : Prop :=
  (∀ e ∈ st.timers, e.priority < 100) ∧
  (∀ e ∈ st.responseQueue, e.priority < 100) ∧
  st.respondersThisMessage.length ≤ st.maxRespondersPerMessage

/-- The response queue is ordered by non-increasing priority (strictly
descending across distinct priorities, with ties contiguous). -/
def QueueSorted (q : List QueueEntry) : Prop :=
  List.Chain' (fun a b => b.priority ≤ a.priority) q

/-! ## Wave throttle data model (`src/types/throttle.ts`) -/

inductive SelectionMode where
  | random
  | roundrobin
  | priority
deriving DecidableEq

structure WaveContext where
  modelId : String
  modelName : List Char
  responseSnippet : List Char
  tone : String
deriving DecidableEq

structure ResponseWave where
  waveNumber : Nat
  respondingModels : List String
  maxPerWave : Nat
  contextFromPreviousWaves : List WaveContext
deriving DecidableEq

structure ThrottleSettings where
  enabled : Bool
  maxPerWave : Nat
  delayBetweenWaves : Nat
  selectionMode : SelectionMode
  showWaveIndicator : Bool
  allowPassing : Bool
deriving DecidableEq

structure WaveState where
  currentWave : Nat
  totalWaves : Nat
  respondingModels : List String
  completedModels : List String
  passedModels : List String
  waveContexts : List WaveContext
deriving DecidableEq

/-! ## Wave throttle operations (`src/lib/waveThrottle.ts`) -/

/-- One swap step of the Fisher-Yates shuffle (identity out of bounds). -/
def listSwap (l : List Model) (i j : Nat) : List Model :=
  match l[i]?, l[j]? with
  | some a, some b => (l.set i b).set j a
  | _, _ => l

/-- The `shuffleArray` loop, counting `v` down from `length - 1` to 1;
`r v % (v + 1)` models `Math.floor(Math.random() * (v + 1))`. -/
def fyAux (r : Nat → Nat) : Nat → List Model → List Model
  | 0, l => l
  | v + 1, l => fyAux r v (listSwap l (v + 1) (r (v + 1) % (v + 2)))

/-- Fisher-Yates shuffle with the random stream `r`. -/
def shuffleArray (r : Nat → Nat) (l : List Model) : List Model :=
  fyAux r (l.length - 1) l

/-- The wave-chunking loop (`for (i = 0; i < n; i += maxPerWave)`), with an
explicit bound on the number of iterations (the loop body runs at most
`l.length` times when `0 < k`; for `maxPerWave = 0` the source loop never
terminates on a non-empty list, so theorems assume `0 < maxPerWave`). -/
def chunkModelsGo (k : Nat) : Nat → List Model → List (List Model)
  | _, [] => []
  | 0, _ :: _ => []
  | fuel + 1, x :: xs =>
    if k = 0 then []
    else (x :: xs).take k :: chunkModelsGo k fuel ((x :: xs).drop k)

def chunkModels (k : Nat) (l : List Model) : List (List Model) :=
  chunkModelsGo k l.length l

/-- Build the `ResponseWave` records for consecutive chunks, numbering waves
from `w` upward (`waveNumber: waves.length + 1` in the source). -/
def chunkWavesAux (k : Nat) (w : Nat) : List (List Model) → List ResponseWave
  | [] => []
  | c :: cs => ⟨w, c.map Model.id, k, []⟩ :: chunkWavesAux k (w + 1) cs

def chunkWaves (k : Nat) (l : List Model) : List ResponseWave :=
  chunkWavesAux k 1 (chunkModels k l)

/-- `buildResponseWaves`.  `r` supplies the `Math.random()` draws used only
by the `random` selection mode. -/
def buildResponseWaves (r : Nat → Nat) (activeModels : List Model)
    (settings : ThrottleSettings) (roundRobinIndex : Nat) :
    List ResponseWave :=
  if !settings.enabled || activeModels.isEmpty then
    [⟨1, activeModels.map Model.id, activeModels.length, []⟩]
  else
    chunkWaves settings.maxPerWave
      (match settings.selectionMode with
       | .random => shuffleArray r activeModels
       | .roundrobin =>
         activeModels.drop (roundRobinIndex % activeModels.length) ++
           activeModels.take (roundRobinIndex % activeModels.length)
       | .priority => activeModels)

/-- `inferTone`. -/
def inferTone (response : List Char) : String :=
  if containsSub ("disagree".toList) (lcToLower response) ||
      containsSub ("however".toList) (lcToLower response) ||
      containsSub ("but ".toList) (lcToLower response) ||
      containsSub ("on the contrary".toList) (lcToLower response) ||
      containsSub ("i would argue".toList) (lcToLower response) then
    "skeptical"
  else if containsSub ("agree".toList) (lcToLower response) ||
      containsSub ("exactly".toList) (lcToLower response) ||
      containsSub ("correct".toList) (lcToLower response) ||
      containsSub ("well said".toList) (lcToLower response) ||
      containsSub ("good point".toList) (lcToLower response) then
    "agreeable"
  else if containsSub ("evidence".toList) (lcToLower response) ||
      containsSub ("data".toList) (lcToLower response) ||
      containsSub ("study".toList) (lcToLower response) ||
      containsSub ("research".toList) (lcToLower response) ||
      containsSub ("statistic".toList) (lcToLower response) then
    "analytical"
  else if (lcToLower response).contains '?' &&
      decide (2 < ((lcToLower response).count '?') + 1) then
    "questioning"
  else if containsSub ("might".toList) (lcToLower response) ||
      containsSub ("perhaps".toList) (lcToLower response) ||
      containsSub ("possibly".toList) (lcToLower response) ||
      containsSub ("it depends".toList) (lcToLower response) then
    "cautious"
  else if containsSub ("clearly".toList) (lcToLower response) ||
      containsSub ("obviously".toList) (lcToLower response) ||
      containsSub ("certainly".toList) (lcToLower response) ||
      containsSub ("without doubt".toList) (lcToLower response) then
    "confident"
  else "neutral"

/-- Index of the first match of the regex `[.!?]\s` (`String.search`). -/
def sentenceEndIdx : List Char → Option Nat
  | [] => none
  | c :: rest =>
    if (c = '.' || c = '!' || c = '?') &&
        (match rest.head? with
         | some n => jsWhitespace n
         | none => false) then
      some 0
    else (sentenceEndIdx rest).map (· + 1)

/-- Global replacement of the regex `\*[^*]+\*` by the empty string:
leftmost-first removal of `*…*` segments with a non-empty star-free body. -/
def stripStars (l : List Char) : List Char :=
  match l with
  | [] => []
  | c :: rest =>
    if c = '*' then
      match _h2 : rest.dropWhile (fun d => d != '*') with
      | '*' :: ys =>
        if (rest.takeWhile (fun d => d != '*')).isEmpty then
          c :: stripStars rest
        else stripStars ys
      | _ => c :: rest
    else c :: stripStars rest
termination_by l.length
decreasing_by
  · simp
  · have hle : (rest.dropWhile (fun d => d != '*')).length ≤ rest.length :=
      (List.dropWhile_sublist _).length_le
    rw [_h2] at hle
    simp at hle ⊢
    omega
  · simp

/-- Final clipping step of the snippet: at most 180 characters plus an
ellipsis. -/
def clipSnippet (s : List Char) : List Char :=
  if 180 < s.length then s.take 180 ++ "...".toList else s

/-- `extractWaveContext`. -/
def extractWaveContext (response : List Char) (model : Model) : WaveContext :=
  { modelId := model.id
    modelName := if model.shortName.isEmpty then model.name else model.shortName
    responseSnippet :=
      clipSnippet (lcTrim (stripStars
        (match sentenceEndIdx response with
         | some i =>
           if 0 < i ∧ i < 200 then response.take (i + 1) else response.take 200
         | none => response.take 200)))
    tone := inferTone response }

/-- `isPassResponse`. -/
def isPassResponse (response : List Char) : Bool :=
  startsWithL (lcToLower (lcTrim response)) ("[pass".toList) ||
  startsWithL (lcToLower (lcTrim response)) ("pass -".toList) ||
  lcToLower (lcTrim response) == "[pass]".toList ||
  lcToLower (lcTrim response) == "pass".toList ||
  containsSub ("[pass - nothing to add]".toList) (lcToLower (lcTrim response))

/-- `updateWaveStateAfterResponse`. -/
def updateWaveStateAfterResponse (currentState : WaveState) (modelId : String)
    (response : List Char) (model : Model) (passed : Bool) : WaveState :=
  if passed || isPassResponse response then
    { currentState with
      passedModels := currentState.passedModels ++ [modelId]
      respondingModels :=
        currentState.respondingModels.filter (fun id => id != modelId) }
  else
    { currentState with
      completedModels := currentState.completedModels ++ [modelId]
      waveContexts :=
        currentState.waveContexts ++ [extractWaveContext response model]
      respondingModels :=
        currentState.respondingModels.filter (fun id => id != modelId) }

/-! ## Basic lemmas about the Set/Map/queue helpers -/

theorem contains_iff_memS {l : List String} {x : String} :
    l.contains x = true ↔ x ∈ l :=
  List.elem_iff

theorem setAdd_of_mem {l : List String} {x : String} (h : x ∈ l) :
    setAdd l x = l := by
  simp [setAdd, h]

theorem setAdd_of_not_mem {l : List String} {x : String} (h : x ∉ l) :
    setAdd l x = l ++ [x] := by
  simp [setAdd, h]

theorem mem_setAdd {l : List String} {x y : String} :
    y ∈ setAdd l x ↔ y ∈ l ∨ y = x := by
  by_cases h : x ∈ l
  · rw [setAdd_of_mem h]
    exact ⟨Or.inl, fun hy => hy.elim id (fun hyx => hyx ▸ h)⟩
  · rw [setAdd_of_not_mem h]
    simp

theorem nodup_setAdd {l : List String} (x : String) (h : l.Nodup) :
    (setAdd l x).Nodup := by
  by_cases hx : x ∈ l
  · rw [setAdd_of_mem hx]; exact h
  · rw [setAdd_of_not_mem hx]
    simp [List.nodup_append, h, hx]

theorem length_setAdd_le {l : List String} (x : String) :
    (setAdd l x).length ≤ l.length + 1 := by
  unfold setAdd
  split
  · omega
  · simp

theorem mem_setDel {l : List String} {x y : String} :
    y ∈ setDel l x ↔ y ∈ l ∧ y ≠ x := by
  simp [setDel]

theorem nodup_setDel {l : List String} (x : String) (h : l.Nodup) :
    (setDel l x).Nodup :=
  h.filter _

theorem setDel_of_not_mem {l : List String} {x : String} (h : x ∉ l) :
    setDel l x = l := by
  induction l with
  | nil => rfl
  | cons a t ih =>
    have hax : ¬(a = x) := fun hax => h (hax ▸ List.mem_cons_self a t)
    have hxt : x ∉ t := fun hxt => h (List.mem_cons_of_mem a hxt)
    simp [setDel] at ih ⊢
    exact ⟨fun hval => absurd hval hax, ih hxt⟩

theorem perm_setDel {l : List String} {x : String} (hnd : l.Nodup)
    (hm : x ∈ l) : List.Perm l (x :: setDel l x) := by
  induction l with
  | nil => cases hm
  | cons a t ih =>
    rcases List.mem_cons.mp hm with rfl | hm'
    · have hxt : x ∉ t := (List.nodup_cons.mp hnd).1
      have hstep : setDel (x :: t) x = setDel t x := by simp [setDel]
      rw [hstep, setDel_of_not_mem hxt]
    · have hnd' := (List.nodup_cons.mp hnd).2
      have hax : a ≠ x := by
        rintro rfl
        exact (List.nodup_cons.mp hnd).1 hm'
      have hstep : setDel (a :: t) x = a :: setDel t x := by simp [setDel, hax]
      rw [hstep]
      exact ((ih hnd' hm').cons a).trans (List.Perm.swap x a _)

theorem insertByPriority_perm (q : List QueueEntry) (e : QueueEntry) :
    List.Perm (insertByPriority q e) (e :: q) := by
  induction q with
  | nil => simp [insertByPriority]
  | cons x rest ih =>
    unfold insertByPriority
    split
    · exact List.Perm.refl _
    · exact (ih.cons x).trans (List.Perm.swap e x rest)

theorem perm_of_getElem?_eraseIdx :
    ∀ (l : List QueueEntry) (i : Nat) (e : QueueEntry), l[i]? = some e →
      List.Perm l (e :: l.eraseIdx i)
  | [], i, e, h => by simp at h
  | x :: xs, 0, e, h => by
      simp at h
      subst h
      simp [List.eraseIdx]
  | x :: xs, i + 1, e, h => by
      simp at h
      have hrec := perm_of_getElem?_eraseIdx xs i e h
      simpa [List.eraseIdx] using (hrec.cons x).trans (List.Perm.swap e x _)

/-! ## Permutation bookkeeping for the three token regions -/

theorem perm_append3_mid (A B C : List String) (x : String) :
    List.Perm (A ++ (x :: (B ++ C))) (x :: (A ++ (B ++ C))) :=
  (List.perm_middle : List.Perm (A ++ x :: (B ++ C)) (x :: (A ++ (B ++ C))))

theorem perm_append3_last (A B C : List String) (x : String) :
    List.Perm (A ++ (B ++ (C ++ [x]))) (x :: (A ++ (B ++ C))) := by
  have he : A ++ (B ++ (C ++ [x])) = (A ++ (B ++ C)) ++ [x] := by
    simp [List.append_assoc]
  rw [he]
  exact List.perm_append_singleton x (A ++ (B ++ C))

theorem perm_append3_firstEnd (A B C : List String) (x : String) :
    List.Perm ((A ++ [x]) ++ (B ++ C)) (x :: (A ++ (B ++ C))) := by
  have he : (A ++ [x]) ++ (B ++ C) = A ++ (x :: (B ++ C)) := by
    simp [List.append_assoc]
  rw [he]
  exact perm_append3_mid A B C x

theorem perm_append3_headA {A A' : List String} (B C : List String) {x : String}
    (h : List.Perm A (x :: A')) :
    List.Perm (A ++ (B ++ C)) (x :: (A' ++ (B ++ C))) :=
  h.append_right (B ++ C)

theorem perm_append3_headB (A : List String) {M B : List String}
    (C : List String) {x : String} (h : List.Perm M (x :: B)) :
    List.Perm (A ++ (M ++ C)) (x :: (A ++ (B ++ C))) :=
  (List.Perm.append_left A (h.append_right C)).trans (perm_append3_mid A B C x)

theorem perm_append3_headC (A B : List String) {C C' : List String} {x : String}
    (h : List.Perm C (x :: C')) :
    List.Perm (A ++ (B ++ C)) (x :: (A ++ (B ++ C'))) := by
  refine (List.Perm.append_left A (List.Perm.append_left B h)).trans ?_
  have he : A ++ (B ++ (x :: C')) = (A ++ B) ++ (x :: C') := by
    simp [List.append_assoc]
  have he2 : A ++ (B ++ C') = (A ++ B) ++ C' := by
    simp [List.append_assoc]
  rw [he, he2]
  exact (List.perm_middle :
    List.Perm ((A ++ B) ++ x :: C') (x :: ((A ++ B) ++ C')))

/-! ## The scheduling invariant: every pending model holds exactly one token -/

theorem InvShape.permTok {p t t' : List String} (h : InvShape p t)
    (hp : List.Perm t t') : InvShape p t' :=
  ⟨fun x => (h.1 x).trans hp.mem_iff, (hp.nodup_iff).mp h.2.1, h.2.2⟩

theorem InvShape.addNew {p t : List String} {x : String} (h : InvShape p t)
    (hx : x ∉ p) : InvShape (p ++ [x]) (x :: t) := by
  refine ⟨fun y => ?_, ?_, ?_⟩
  · simp only [List.mem_append, List.mem_singleton, List.mem_cons]
    rw [h.1 y]
    tauto
  · exact List.nodup_cons.mpr ⟨fun hxt => hx ((h.1 x).mpr hxt), h.2.1⟩
  · simp [List.nodup_append, h.2.2, hx]

theorem InvShape.dropHead {p t : List String} {x : String}
    (h : InvShape p (x :: t)) : InvShape (setDel p x) t := by
  obtain ⟨hmem, hnd, hpnd⟩ := h
  have hxt : x ∉ t := (List.nodup_cons.mp hnd).1
  refine ⟨fun y => ?_, (List.nodup_cons.mp hnd).2, nodup_setDel x hpnd⟩
  rw [mem_setDel, hmem y, List.mem_cons]
  constructor
  · rintro ⟨rfl | hyt, hyx⟩
    · exact absurd rfl hyx
    · exact hyt
  · intro hyt
    exact ⟨Or.inr hyt, fun hyx => hxt (hyx ▸ hyt)⟩

/-- Invariant preservation for the deferred check, stated for the state in
which the firing timer's token has already been consumed. -/
theorem deferredCheck_inv {st : EngineState} {id : String} {p : Nat}
    (h : InvShape st.pendingModels (id :: tokensOf st)) :
    EngineInv (deferredCheck st id p) := by
  have hidp : id ∈ st.pendingModels := (h.1 id).mpr (List.mem_cons_self id _)
  have hidc : st.pendingModels.contains id = true := contains_iff_memS.mpr hidp
  unfold deferredCheck commitResponse
  rw [hidc]
  simp only [Bool.not_true, Bool.false_eq_true, if_false]
  split
  · exact h.dropHead
  · split
    · exact h.dropHead
    · split
      · exact h.permTok
          (perm_append3_last (st.timers.map QueueEntry.modelId)
            (st.responseQueue.map QueueEntry.modelId) st.inFlight id).symm
      · exact h.permTok
          (perm_append3_headB (st.timers.map QueueEntry.modelId) st.inFlight
            ((insertByPriority_perm st.responseQueue ⟨id, p⟩).map
              QueueEntry.modelId)).symm

theorem queueResponse_inv {st : EngineState} {id : String} {d p : Nat}
    (h : EngineInv st) : EngineInv (queueResponse st id d p) := by
  unfold queueResponse
  split
  · exact h
  · rename_i hc
    have hid : id ∉ st.pendingModels := fun hm => hc (contains_iff_memS.mpr hm)
    have hnew := h.addNew hid
    rw [setAdd_of_not_mem hid]
    refine hnew.permTok ?_
    have he : (st.timers ++ [(⟨id, p⟩ : QueueEntry)]).map QueueEntry.modelId =
        st.timers.map QueueEntry.modelId ++ [id] := by simp
    exact (he ▸ (perm_append3_firstEnd (st.timers.map QueueEntry.modelId)
      (st.responseQueue.map QueueEntry.modelId) st.inFlight id).symm :)

theorem fireTimer_inv {st : EngineState} {i : Nat} (h : EngineInv st) :
    EngineInv (fireTimer st i) := by
  unfold fireTimer
  split
  · exact h
  · rename_i e hg
    have hpermT : List.Perm st.timers (e :: st.timers.eraseIdx i) :=
      perm_of_getElem?_eraseIdx _ _ _ hg
    exact deferredCheck_inv
      (h.permTok (perm_append3_headA (st.responseQueue.map QueueEntry.modelId)
        st.inFlight (hpermT.map QueueEntry.modelId)))

theorem inFlight_nodup_of_inv {st : EngineState} (h : EngineInv st) :
    st.inFlight.Nodup := by
  have hnd := h.2.1
  rw [tokensOf, List.nodup_append, List.nodup_append] at hnd
  exact hnd.2.1.2.1

theorem completeResponse_inv {st : EngineState} {id : String} {now : Nat}
    (hin : id ∈ st.inFlight) (h : EngineInv st) :
    EngineInv (completeResponse st id now) := by
  have hpermC : List.Perm st.inFlight (id :: setDel st.inFlight id) :=
    perm_setDel (inFlight_nodup_of_inv h) hin
  have h1 : EngineInv (completeBookkeeping st id now) :=
    InvShape.dropHead (h.permTok (perm_append3_headC
      (st.timers.map QueueEntry.modelId)
      (st.responseQueue.map QueueEntry.modelId) hpermC))
  unfold completeResponse
  split
  · exact h1
  · rename_i next rest heq
    have hq : List.Perm
        ((completeBookkeeping st id now).responseQueue.map QueueEntry.modelId)
        (next.modelId :: rest.map QueueEntry.modelId) := by
      rw [heq]
      exact List.Perm.refl _
    have h2 := h1.permTok (perm_append3_headB
      ((completeBookkeeping st id now).timers.map QueueEntry.modelId)
      (completeBookkeeping st id now).inFlight hq)
    unfold completeDequeue
    split
    · exact h2.dropHead
    · split
      · exact h2.dropHead
      · exact h2.permTok
          (perm_append3_last
            ((completeBookkeeping st id now).timers.map QueueEntry.modelId)
            (rest.map QueueEntry.modelId)
            (completeBookkeeping st id now).inFlight next.modelId).symm

theorem stepEv_inv {st : EngineState} {e : Event} (hs : SchedEvent e)
    (h : EngineInv st) : EngineInv (stepEv st e) := by
  cases e with
  | queueEv id d p =>
    simp only [stepEv]
    exact queueResponse_inv h
  | fireEv i =>
    simp only [stepEv]
    exact fireTimer_inv h
  | completeEv id now =>
    simp only [stepEv]
    split
    · rename_i hc
      exact completeResponse_inv (contains_iff_memS.mp hc) h
    · exact h
  | userEv => exact absurd hs (by simp [SchedEvent])
  | resetEv => exact absurd hs (by simp [SchedEvent])
  | setMaxRespEv n => exact absurd hs (by simp [SchedEvent])
  | setMaxConsecEv n => exact absurd hs (by simp [SchedEvent])

theorem foldl_inv : ∀ (evs : List Event) (st : EngineState),
    (∀ e ∈ evs, SchedEvent e) → EngineInv st →
    EngineInv (evs.foldl stepEv st)
  | [], _, _, h => h
  | e :: evs, st, hall, h =>
    foldl_inv evs (stepEv st e)
      (fun e' he' => hall e' (List.mem_cons_of_mem e he'))
      (stepEv_inv (hall e (List.mem_cons_self e evs)) h)

theorem initialEngine_inv : EngineInv initialEngine :=
  ⟨fun x => by simp [initialEngine, tokensOf], by simp [initialEngine, tokensOf],
   by simp [initialEngine]⟩

theorem execTrace_inv (evs : List Event) (h : ∀ e ∈ evs, SchedEvent e) :
    EngineInv (execTrace evs) :=
  foldl_inv evs initialEngine h initialEngine_inv

theorem queueResponse_noop {st : EngineState} {id : String} (d p : Nat)
    (h : id ∈ st.pendingModels) : queueResponse st id d p = st := by
  unfold queueResponse
  rw [contains_iff_memS.mpr h]
  simp

/-! ## Claim C2 -/

/-- C2, counterexample: after `queueResponse("a", _, 80)` and its deferred
check, model "a" is generating (in flight) and still a member of
`pendingModels`, so a participantId can be present in more than one of
{pending set, response queue, currently-executing generation}
simultaneously. -/
theorem C2_counterexample_overlap :
    "a" ∈ (execTrace [Event.queueEv "a" 0 80, Event.fireEv 0]).pendingModels ∧
    "a" ∈ (execTrace [Event.queueEv "a" 0 80, Event.fireEv 0]).inFlight := by
  decide

/-- C2, amended: along any sequence of `queueResponse`, deferred-check and
`completeResponse` events, a participantId occurs at most once in the
response queue, at most once among executing generations, and never in
both; every queued or executing participantId is still a member of the
pending set; and `queueResponse` for a participantId already pending
(hence for any queued or in-flight one) is a no-op. -/
theorem C2_no_duplicate_scheduling (evs : List Event)
    (hsched : ∀ e ∈ evs, SchedEvent e) :
    ((execTrace evs).responseQueue.map QueueEntry.modelId).Nodup ∧
    (execTrace evs).inFlight.Nodup ∧
    (∀ x, x ∈ (execTrace evs).responseQueue.map QueueEntry.modelId →
      x ∉ (execTrace evs).inFlight) ∧
    (∀ x, x ∈ (execTrace evs).responseQueue.map QueueEntry.modelId →
      x ∈ (execTrace evs).pendingModels) ∧
    (∀ x, x ∈ (execTrace evs).inFlight → x ∈ (execTrace evs).pendingModels) ∧
    (∀ id d p, id ∈ (execTrace evs).pendingModels →
      queueResponse (execTrace evs) id d p = execTrace evs) := by
  obtain ⟨hmem, hnd, hpnd⟩ := execTrace_inv evs hsched
  rw [tokensOf, List.nodup_append] at hnd
  obtain ⟨hndA, hndBC, hdisjA⟩ := hnd
  rw [List.nodup_append] at hndBC
  obtain ⟨hndB, hndC, hdisjBC⟩ := hndBC
  refine ⟨hndB, hndC, fun x hxB => hdisjBC hxB, fun x hxB => ?_, fun x hxC => ?_,
    fun id d p hid => queueResponse_noop d p hid⟩
  · exact (hmem x).mpr (by
      rw [tokensOf]
      exact List.mem_append_right _ (List.mem_append_left _ hxB))
  · exact (hmem x).mpr (by
      rw [tokensOf]
      exact List.mem_append_right _ (List.mem_append_right _ hxC))

/-- Witness for C2: a concrete pending participant for which `queueResponse`
is a no-op. -/
theorem C2_no_duplicate_scheduling_witness :
    queueResponse (execTrace [Event.queueEv "a" 0 80]) "a" 0 50 =
      execTrace [Event.queueEv "a" 0 80] :=
  (C2_no_duplicate_scheduling [Event.queueEv "a" 0 80]
    (by decide)).2.2.2.2.2 "a" 0 50 (by decide)

/-! ## Claim C3 -/

theorem deferredCheck_capInv {st : EngineState} {id : String} {p : Nat}
    (hp : p < 100)
    (ht : ∀ x ∈ st.timers, x.priority < 100)
    (hq : ∀ x ∈ st.responseQueue, x.priority < 100)
    (hlen : st.respondersThisMessage.length ≤ st.maxRespondersPerMessage) :
    CapInv (deferredCheck st id p) := by
  unfold deferredCheck commitResponse triggerResponse
  split
  · exact ⟨ht, hq, hlen⟩
  · split
    · exact ⟨ht, hq, hlen⟩
    · split
      · exact ⟨ht, hq, hlen⟩
      · rename_i h1 h2
        have hlt : st.respondersThisMessage.length <
            st.maxRespondersPerMessage := by
          by_contra hge
          push_neg at hge
          exact h1 (by simp [hp, hge])
        have hlen' := length_setAdd_le (l := st.respondersThisMessage) id
        split
        · exact ⟨ht, hq, by dsimp only; omega⟩
        · refine ⟨ht, ?_, by dsimp only; omega⟩
          intro x hx
          rcases List.mem_cons.mp
              ((insertByPriority_perm st.responseQueue ⟨id, p⟩).mem_iff.mp hx) with
            rfl | hx'
          · exact hp
          · exact hq x hx'

theorem completeDequeue_capInv {st1 : EngineState} {next : QueueEntry}
    {rest : List QueueEntry} (hnext : next.priority < 100)
    (ht : ∀ x ∈ st1.timers, x.priority < 100)
    (hrest : ∀ x ∈ rest, x.priority < 100)
    (hlen : st1.respondersThisMessage.length ≤ st1.maxRespondersPerMessage) :
    CapInv (completeDequeue st1 next rest) := by
  unfold completeDequeue triggerResponse
  split
  · exact ⟨ht, hrest, hlen⟩
  · split
    · exact ⟨ht, hrest, hlen⟩
    · rename_i h1 h2
      have hlt : st1.respondersThisMessage.length <
          st1.maxRespondersPerMessage := by
        by_contra hge
        push_neg at hge
        exact h1 (by simp [hnext, hge])
      have hlen' := length_setAdd_le (l := st1.respondersThisMessage) next.modelId
      exact ⟨ht, hrest, by dsimp only; omega⟩

theorem capInv_step {st : EngineState} {e : Event}
    (he : NonBypassSchedEvent e) (h : CapInv st) : CapInv (stepEv st e) := by
  obtain ⟨ht, hq, hlen⟩ := h
  cases e with
  | queueEv id d p =>
    simp only [stepEv]
    unfold queueResponse
    split
    · exact ⟨ht, hq, hlen⟩
    · refine ⟨?_, hq, hlen⟩
      intro x hx
      rcases List.mem_append.mp hx with hx1 | hx1
      · exact ht x hx1
      · have hxe : x = ⟨id, p⟩ := by simpa using hx1
        rw [hxe]
        exact he
  | fireEv i =>
    simp only [stepEv]
    unfold fireTimer
    split
    · exact ⟨ht, hq, hlen⟩
    · rename_i e0 hg
      have hperm := perm_of_getElem?_eraseIdx _ _ _ hg
      exact deferredCheck_capInv (ht e0 (List.getElem?_mem hg))
        (fun x hx => ht x (hperm.mem_iff.mpr (List.mem_cons_of_mem _ hx)))
        hq hlen
  | completeEv id now =>
    simp only [stepEv]
    split
    · unfold completeResponse
      split
      · exact ⟨ht, hq, hlen⟩
      · rename_i next rest heq
        have heq' : st.responseQueue = next :: rest := heq
        have hnext : next.priority < 100 := hq next (by
          rw [heq']
          exact List.mem_cons_self _ _)
        have hrest : ∀ x ∈ rest, x.priority < 100 := fun x hx => hq x (by
          rw [heq']
          exact List.mem_cons_of_mem _ hx)
        exact completeDequeue_capInv hnext ht hrest hlen
    · exact ⟨ht, hq, hlen⟩
  | userEv => exact absurd he (by simp [NonBypassSchedEvent])
  | resetEv => exact absurd he (by simp [NonBypassSchedEvent])
  | setMaxRespEv n => exact absurd he (by simp [NonBypassSchedEvent])
  | setMaxConsecEv n => exact absurd he (by simp [NonBypassSchedEvent])

theorem foldl_capInv : ∀ (evs : List Event) (st : EngineState),
    (∀ e ∈ evs, NonBypassSchedEvent e) → CapInv st →
    CapInv (evs.foldl stepEv st)
  | [], _, _, h => h
  | e :: evs, st, hall, h =>
    foldl_capInv evs (stepEv st e)
      (fun e' he' => hall e' (List.mem_cons_of_mem e he'))
      (capInv_step (hall e (List.mem_cons_self e evs)) h)

theorem initialEngine_capInv : CapInv initialEngine :=
  ⟨by simp [initialEngine], by simp [initialEngine], by simp [initialEngine]⟩

theorem deferredCheck_drop_eq {st : EngineState} {id : String} {p : Nat}
    (hpend : id ∈ st.pendingModels) (hp : p < 100)
    (hcap : st.maxRespondersPerMessage ≤ st.respondersThisMessage.length ∨
      st.maxConsecutiveAI ≤ st.consecutiveAIResponses) :
    deferredCheck st id p =
      { st with pendingModels := setDel st.pendingModels id } := by
  have hc := contains_iff_memS.mpr hpend
  rcases hcap with hcap | hcap
  · simp [deferredCheck, hc, hp, hcap, hpend]
  · by_cases hres : st.maxRespondersPerMessage ≤ st.respondersThisMessage.length
    · simp [deferredCheck, hc, hp, hres, hpend]
    · simp [deferredCheck, hc, hp, hres, hcap, hpend]

theorem completeDequeue_drop_eq {st1 : EngineState} {next : QueueEntry}
    {rest : List QueueEntry} (hp : next.priority < 100)
    (hcap : st1.maxRespondersPerMessage ≤ st1.respondersThisMessage.length ∨
      st1.maxConsecutiveAI ≤ st1.consecutiveAIResponses) :
    completeDequeue st1 next rest =
      { st1 with responseQueue := rest
                 pendingModels := setDel st1.pendingModels next.modelId } := by
  rcases hcap with hcap | hcap
  · simp [completeDequeue, hp, hcap]
  · by_cases hres : st1.maxRespondersPerMessage ≤ st1.respondersThisMessage.length
    · simp [completeDequeue, hp, hres]
    · simp [completeDequeue, hp, hres, hcap]

/-- C3: along any sequence of non-bypass scheduler events within one trigger
epoch, `respondersThisMessage` never grows beyond `maxRespondersPerMessage`;
and once the cap is reached, a further non-bypass entry is dropped — removed
from `pendingModels` with no other state change — at its deferred check, and
likewise when popped at dequeue. -/
theorem C3_responder_cap_monotone (evs : List Event)
    (hnb : ∀ e ∈ evs, NonBypassSchedEvent e) :
    (execTrace evs).respondersThisMessage.length ≤
      (execTrace evs).maxRespondersPerMessage ∧
    (∀ (s : EngineState) (id : String) (p : Nat), id ∈ s.pendingModels →
      p < 100 → s.maxRespondersPerMessage ≤ s.respondersThisMessage.length →
      deferredCheck s id p = { s with pendingModels := setDel s.pendingModels id }) ∧
    (∀ (s : EngineState) (next : QueueEntry) (rest : List QueueEntry),
      next.priority < 100 →
      s.maxRespondersPerMessage ≤ s.respondersThisMessage.length →
      completeDequeue s next rest =
        { s with responseQueue := rest
                 pendingModels := setDel s.pendingModels next.modelId }) := by
  refine ⟨(foldl_capInv evs initialEngine hnb initialEngine_capInv).2.2, ?_, ?_⟩
  · intro s id p hpend hp hcap
    exact deferredCheck_drop_eq hpend hp (Or.inl hcap)
  · intro s next rest hp hcap
    exact completeDequeue_drop_eq hp (Or.inl hcap)

/-- Witness for C3: three non-bypass decisions against the default cap of 2
commit at most two responders, and the third is dropped at its deferred
check. -/
theorem C3_responder_cap_monotone_witness :
    (execTrace [Event.queueEv "a" 0 80, Event.fireEv 0, Event.queueEv "b" 0 60,
      Event.fireEv 0, Event.queueEv "c" 0 60,
      Event.fireEv 0]).respondersThisMessage.length ≤
      (execTrace [Event.queueEv "a" 0 80, Event.fireEv 0, Event.queueEv "b" 0 60,
        Event.fireEv 0, Event.queueEv "c" 0 60,
        Event.fireEv 0]).maxRespondersPerMessage ∧
    deferredCheck (execTrace [Event.queueEv "a" 0 80, Event.fireEv 0,
        Event.queueEv "b" 0 60, Event.fireEv 0, Event.queueEv "c" 0 60]) "c" 60 =
      { execTrace [Event.queueEv "a" 0 80, Event.fireEv 0,
          Event.queueEv "b" 0 60, Event.fireEv 0, Event.queueEv "c" 0 60] with
        pendingModels := setDel (execTrace [Event.queueEv "a" 0 80, Event.fireEv 0,
          Event.queueEv "b" 0 60, Event.fireEv 0,
          Event.queueEv "c" 0 60]).pendingModels "c" } :=
  ⟨(C3_responder_cap_monotone [Event.queueEv "a" 0 80, Event.fireEv 0,
      Event.queueEv "b" 0 60, Event.fireEv 0, Event.queueEv "c" 0 60,
      Event.fireEv 0] (by decide)).1,
   (C3_responder_cap_monotone [] (by decide)).2.1
     (execTrace [Event.queueEv "a" 0 80, Event.fireEv 0, Event.queueEv "b" 0 60,
       Event.fireEv 0, Event.queueEv "c" 0 60]) "c" 60
     (by decide) (by decide) (by decide)⟩

/-! ## Claim C4 -/

theorem deferredCheck_current_spec (st : EngineState) (id : String) (p : Nat) :
    ((deferredCheck st id p).currentlyResponding = st.currentlyResponding ∨
      ((deferredCheck st id p).currentlyResponding = st.currentlyResponding + 1 ∧
        st.currentlyResponding < (st.maxConcurrent : Int))) ∧
    (deferredCheck st id p).maxConcurrent = st.maxConcurrent := by
  unfold deferredCheck commitResponse triggerResponse
  split
  · exact ⟨Or.inl rfl, rfl⟩
  · split
    · exact ⟨Or.inl rfl, rfl⟩
    · split
      · exact ⟨Or.inl rfl, rfl⟩
      · split
        · rename_i hlt
          exact ⟨Or.inr ⟨rfl, hlt⟩, rfl⟩
        · exact ⟨Or.inl rfl, rfl⟩

theorem completeResponse_current_spec (st : EngineState) (id : String)
    (now : Nat) :
    ((completeResponse st id now).currentlyResponding =
        st.currentlyResponding - 1 ∨
      (completeResponse st id now).currentlyResponding =
        st.currentlyResponding) ∧
    (completeResponse st id now).responseQueue = st.responseQueue.drop 1 ∧
    (completeResponse st id now).maxConcurrent = st.maxConcurrent := by
  unfold completeResponse completeDequeue triggerResponse
  split
  · rename_i heq
    have heq' : st.responseQueue = [] := heq
    exact ⟨Or.inl rfl, by simp [completeBookkeeping, heq'], rfl⟩
  · rename_i next rest heq
    have heq' : st.responseQueue = next :: rest := heq
    split
    · exact ⟨Or.inl rfl, by simp [heq'], rfl⟩
    · split
      · exact ⟨Or.inl rfl, by simp [heq'], rfl⟩
      · refine ⟨Or.inr ?_, by simp [heq'], rfl⟩
        show st.currentlyResponding - 1 + 1 = st.currentlyResponding
        omega

theorem queueResponse_current (st : EngineState) (id : String) (d p : Nat) :
    (queueResponse st id d p).currentlyResponding = st.currentlyResponding ∧
    (queueResponse st id d p).maxConcurrent = st.maxConcurrent := by
  unfold queueResponse
  split
  · exact ⟨rfl, rfl⟩
  · exact ⟨rfl, rfl⟩

/-- C4: from any state with `currentlyResponding ≤ maxConcurrent`, every
scheduler operation preserves the bound; a deferred check increments the
in-flight counter (starts a generation immediately) only when a concurrency
slot is free; and `completeResponse` decrements the count and then triggers
at most one queued entry (its queue always loses exactly its head). -/
theorem C4_concurrency_bound (st : EngineState) (id : String) (d p now i : Nat)
    (h : st.currentlyResponding ≤ (st.maxConcurrent : Int)) :
    (queueResponse st id d p).currentlyResponding ≤
      ((queueResponse st id d p).maxConcurrent : Int) ∧
    (fireTimer st i).currentlyResponding ≤
      ((fireTimer st i).maxConcurrent : Int) ∧
    (completeResponse st id now).currentlyResponding ≤
      ((completeResponse st id now).maxConcurrent : Int) ∧
    (resetEngine st).currentlyResponding ≤
      ((resetEngine st).maxConcurrent : Int) ∧
    ((deferredCheck st id p).currentlyResponding =
        st.currentlyResponding + 1 →
      st.currentlyResponding < (st.maxConcurrent : Int)) ∧
    (completeResponse st id now).responseQueue = st.responseQueue.drop 1 ∧
    ((completeResponse st id now).currentlyResponding =
        st.currentlyResponding - 1 ∨
      (completeResponse st id now).currentlyResponding =
        st.currentlyResponding) := by
  obtain ⟨hqc, hqm⟩ := queueResponse_current st id d p
  obtain ⟨hcc, hcq, hcm⟩ := completeResponse_current_spec st id now
  refine ⟨by rw [hqc, hqm]; exact h, ?_, by rw [hcm]; rcases hcc with hcc | hcc <;>
    rw [hcc] <;> omega, by show (0 : Int) ≤ (st.maxConcurrent : Int); omega, ?_,
    hcq, hcc⟩
  · unfold fireTimer
    split
    · exact h
    · rename_i e0 hg
      obtain ⟨hdc, hdm⟩ := deferredCheck_current_spec
        { st with timers := st.timers.eraseIdx i } e0.modelId e0.priority
      rw [hdm]
      rcases hdc with hdc | ⟨hdc, hlt⟩ <;> rw [hdc]
      · exact h
      · exact hlt
  · intro hinc
    rcases (deferredCheck_current_spec st id p).1 with hdc | ⟨_, hlt⟩
    · rw [hinc] at hdc
      omega
    · exact hlt

/-- Witness for C4: the bounds evaluated at the freshly constructed engine. -/
theorem C4_concurrency_bound_witness :
    (queueResponse initialEngine "a" 0 80).currentlyResponding ≤
      ((queueResponse initialEngine "a" 0 80).maxConcurrent : Int) ∧
    (fireTimer initialEngine 0).currentlyResponding ≤
      ((fireTimer initialEngine 0).maxConcurrent : Int) ∧
    (completeResponse initialEngine "a" 5).currentlyResponding ≤
      ((completeResponse initialEngine "a" 5).maxConcurrent : Int) ∧
    (resetEngine initialEngine).currentlyResponding ≤
      ((resetEngine initialEngine).maxConcurrent : Int) ∧
    ((deferredCheck initialEngine "a" 80).currentlyResponding =
        initialEngine.currentlyResponding + 1 →
      initialEngine.currentlyResponding < (initialEngine.maxConcurrent : Int)) ∧
    (completeResponse initialEngine "a" 5).responseQueue =
      initialEngine.responseQueue.drop 1 ∧
    ((completeResponse initialEngine "a" 5).currentlyResponding =
        initialEngine.currentlyResponding - 1 ∨
      (completeResponse initialEngine "a" 5).currentlyResponding =
        initialEngine.currentlyResponding) :=
  C4_concurrency_bound initialEngine "a" 0 80 5 0 (by decide)

/-! ## Claim C5 -/

theorem head?_insertByPriority (q : List QueueEntry) (e : QueueEntry) :
    (insertByPriority q e).head? = some e ∨
    (insertByPriority q e).head? = q.head? := by
  cases q with
  | nil => exact Or.inl rfl
  | cons x rest =>
    unfold insertByPriority
    split
    · exact Or.inl rfl
    · exact Or.inr rfl

theorem insertByPriority_sorted {q : List QueueEntry} (e : QueueEntry)
    (h : QueueSorted q) : QueueSorted (insertByPriority q e) := by
  induction q with
  | nil =>
    unfold insertByPriority QueueSorted
    simp
  | cons x rest ih =>
    unfold insertByPriority
    split
    · rename_i hlt
      exact List.chain'_cons.mpr ⟨Nat.le_of_lt hlt, h⟩
    · rename_i hge
      have hx := List.chain'_cons'.mp h
      refine List.chain'_cons'.mpr ⟨?_, ih hx.2⟩
      intro b hb
      rcases head?_insertByPriority rest e with he | he
      · rw [he] at hb
        simp at hb
        rw [← hb]
        exact Nat.le_of_not_lt hge
      · rw [he] at hb
        exact hx.1 b hb

theorem stepEv_sorted {st : EngineState} (e : Event)
    (h : QueueSorted st.responseQueue) :
    QueueSorted (stepEv st e).responseQueue := by
  cases e with
  | queueEv id d p =>
    simp only [stepEv]
    unfold queueResponse
    split
    · exact h
    · exact h
  | fireEv i =>
    simp only [stepEv]
    unfold fireTimer
    split
    · exact h
    · unfold deferredCheck commitResponse triggerResponse
      split
      · exact h
      · split
        · exact h
        · split
          · exact h
          · split
            · exact h
            · exact insertByPriority_sorted _ h
  | completeEv id now =>
    simp only [stepEv]
    split
    · unfold completeResponse completeDequeue triggerResponse
      split
      · exact h
      · rename_i next rest heq
        have heq' : st.responseQueue = next :: rest := heq
        have hrest : QueueSorted rest := by
          rw [heq'] at h
          exact (List.chain'_cons'.mp h).2
        split
        · exact hrest
        · split
          · exact hrest
          · exact hrest
    · exact h
  | userEv => exact h
  | resetEv => exact List.chain'_nil
  | setMaxRespEv n => exact h
  | setMaxConsecEv n => exact h

theorem foldl_sorted : ∀ (evs : List Event) (st : EngineState),
    QueueSorted st.responseQueue →
    QueueSorted (evs.foldl stepEv st).responseQueue
  | [], _, h => h
  | e :: evs, st, h => foldl_sorted evs (stepEv st e) (stepEv_sorted e h)

theorem insertByPriority_position (q : List QueueEntry) (e : QueueEntry) :
    insertByPriority q e =
      q.takeWhile (fun x => !decide (x.priority < e.priority)) ++
        e :: q.dropWhile (fun x => !decide (x.priority < e.priority)) := by
  induction q with
  | nil => rfl
  | cons x rest ih =>
    unfold insertByPriority
    split
    · rename_i hlt
      simp [List.takeWhile_cons, List.dropWhile_cons, hlt]
    · rename_i hge
      simp only [List.takeWhile_cons, List.dropWhile_cons]
      simp [hge, ih]

/-- C5: the response queue is always sorted by non-increasing priority (the
insertion step keeps it sorted and positions a new entry immediately before
the first strictly-lower-priority entry, or at the end — so arrival order is
preserved among equal priorities); dequeue always removes the head; and
entries queued with priorities 60, 80, 100 while the single concurrency
slot is busy are handed to generation in the order 100, 80, 60. -/
theorem C5_priority_queue_order :
    (∀ evs : List Event, QueueSorted (execTrace evs).responseQueue) ∧
    (∀ (q : List QueueEntry) (e : QueueEntry), QueueSorted q →
      QueueSorted (insertByPriority q e)) ∧
    (∀ (q : List QueueEntry) (e : QueueEntry),
      insertByPriority q e =
        q.takeWhile (fun x => !decide (x.priority < e.priority)) ++
          e :: q.dropWhile (fun x => !decide (x.priority < e.priority))) ∧
    (∀ (s : EngineState) (id : String) (now : Nat),
      (completeResponse s id now).responseQueue = s.responseQueue.drop 1) ∧
    (execTrace [Event.setMaxRespEv 5, Event.queueEv "x" 0 80, Event.fireEv 0,
      Event.queueEv "a" 0 60, Event.fireEv 0, Event.queueEv "b" 0 80,
      Event.fireEv 0, Event.queueEv "c" 0 100,
      Event.fireEv 0]).responseQueue.map QueueEntry.priority = [100, 80, 60] ∧
    (execTrace [Event.setMaxRespEv 5, Event.queueEv "x" 0 80, Event.fireEv 0,
      Event.queueEv "a" 0 60, Event.fireEv 0, Event.queueEv "b" 0 80,
      Event.fireEv 0, Event.queueEv "c" 0 100, Event.fireEv 0,
      Event.completeEv "x" 1, Event.completeEv "c" 2, Event.completeEv "b" 3,
      Event.completeEv "a" 4]).triggerLog = ["x", "c", "b", "a"] := by
  refine ⟨fun evs => foldl_sorted evs initialEngine List.chain'_nil,
    fun q e hq => insertByPriority_sorted e hq, insertByPriority_position,
    fun s id now => (completeResponse_current_spec s id now).2.1,
    by decide, by decide⟩

/-- Witness for C5: sortedness of a concrete insertion. -/
theorem C5_priority_queue_order_witness :
    QueueSorted (insertByPriority [⟨"b", 80⟩, ⟨"a", 60⟩] ⟨"c", 70⟩) :=
  C5_priority_queue_order.2.1 [⟨"b", 80⟩, ⟨"a", 60⟩] ⟨"c", 70⟩
    (by simp [QueueSorted, List.chain'_cons])

/-! ## Claim C6 -/

theorem completeDequeue_commit_eq {st1 : EngineState} {next : QueueEntry}
    {rest : List QueueEntry}
    (hok : next.priority < 100 →
      st1.respondersThisMessage.length < st1.maxRespondersPerMessage ∧
        st1.consecutiveAIResponses < st1.maxConsecutiveAI) :
    completeDequeue st1 next rest =
      triggerResponse
        { st1 with responseQueue := rest
                   respondersThisMessage :=
                     setAdd st1.respondersThisMessage next.modelId }
        next.modelId := by
  by_cases hp : next.priority < 100
  · obtain ⟨h1, h2⟩ := hok hp
    simp [completeDequeue, Nat.not_le.mpr h1, Nat.not_le.mpr h2]
  · simp [completeDequeue, hp]

/-- C6: when `completeResponse` pops an entry from a non-empty queue, it
hands exactly that entry to `completeDequeue`; if the entry is non-bypass
and either cap is exceeded, that single entry is dropped silently (removed
from `pendingModels`, queue reduced by exactly the popped head, no trigger
recorded, responder set untouched) with no cascade to the next entry;
otherwise the entry is committed to `respondersThisMessage` and its
generation triggered. -/
theorem C6_abort_one_no_cascade (st1 : EngineState) (next : QueueEntry)
    (rest : List QueueEntry) (s : EngineState) (id : String) (now : Nat) :
    ((completeBookkeeping s id now).responseQueue = next :: rest →
      completeResponse s id now =
        completeDequeue (completeBookkeeping s id now) next rest) ∧
    (next.priority < 100 →
      st1.maxRespondersPerMessage ≤ st1.respondersThisMessage.length ∨
        st1.maxConsecutiveAI ≤ st1.consecutiveAIResponses →
      completeDequeue st1 next rest =
        { st1 with responseQueue := rest
                   pendingModels := setDel st1.pendingModels next.modelId }) ∧
    ((next.priority < 100 →
        st1.respondersThisMessage.length < st1.maxRespondersPerMessage ∧
          st1.consecutiveAIResponses < st1.maxConsecutiveAI) →
      completeDequeue st1 next rest =
        triggerResponse
          { st1 with responseQueue := rest
                     respondersThisMessage :=
                       setAdd st1.respondersThisMessage next.modelId }
          next.modelId) := by
  refine ⟨?_, fun hp hcap => completeDequeue_drop_eq hp hcap,
    fun hok => completeDequeue_commit_eq hok⟩
  intro heq
  unfold completeResponse
  rw [heq]

/-- Witness for C6: completing "x" pops the queued non-bypass entry "c"
while the responder cap is full, and that entry alone is dropped: the queue
head is consumed, "c" leaves `pendingModels`, nothing is triggered. -/
theorem C6_abort_one_no_cascade_witness :
    (completeResponse
      ⟨[], [⟨"c", 60⟩], ["x", "c"], 1, 1, 0, ["x", "y"], 2, 10, [], ["x"], []⟩
      "x" 9).responseQueue = [] ∧
    (completeResponse
      ⟨[], [⟨"c", 60⟩], ["x", "c"], 1, 1, 0, ["x", "y"], 2, 10, [], ["x"], []⟩
      "x" 9).pendingModels = [] ∧
    (completeResponse
      ⟨[], [⟨"c", 60⟩], ["x", "c"], 1, 1, 0, ["x", "y"], 2, 10, [], ["x"], []⟩
      "x" 9).respondersThisMessage = ["x", "y"] ∧
    (completeResponse
      ⟨[], [⟨"c", 60⟩], ["x", "c"], 1, 1, 0, ["x", "y"], 2, 10, [], ["x"], []⟩
      "x" 9).triggerLog = [] := by
  have h1 := (C6_abort_one_no_cascade
    (completeBookkeeping
      ⟨[], [⟨"c", 60⟩], ["x", "c"], 1, 1, 0, ["x", "y"], 2, 10, [], ["x"], []⟩
      "x" 9) ⟨"c", 60⟩ []
    ⟨[], [⟨"c", 60⟩], ["x", "c"], 1, 1, 0, ["x", "y"], 2, 10, [], ["x"], []⟩
    "x" 9).1 (by decide)
  have h2 := (C6_abort_one_no_cascade
    (completeBookkeeping
      ⟨[], [⟨"c", 60⟩], ["x", "c"], 1, 1, 0, ["x", "y"], 2, 10, [], ["x"], []⟩
      "x" 9) ⟨"c", 60⟩ []
    ⟨[], [⟨"c", 60⟩], ["x", "c"], 1, 1, 0, ["x", "y"], 2, 10, [], ["x"], []⟩
    "x" 9).2.1 (by decide) (Or.inl (by decide))
  rw [h1, h2]
  exact ⟨by decide, by decide, by decide, by decide⟩

/-! ## Claim C9 -/

theorem dropLast_cons2 (a b : ResponseWave) (l : List ResponseWave) :
    (a :: b :: l).dropLast = a :: (b :: l).dropLast := rfl

theorem dropLast_cons2M (a b : List Model) (l : List (List Model)) :
    (a :: b :: l).dropLast = a :: (b :: l).dropLast := rfl

theorem chunkModelsGo_flatten (k : Nat) (hk : 0 < k) (fuel : Nat) :
    ∀ (l : List Model), l.length ≤ fuel →
      (chunkModelsGo k fuel l).flatten = l := by
  induction fuel with
  | zero =>
    intro l hl
    cases l with
    | nil => simp [chunkModelsGo]
    | cons x xs => simp at hl
  | succ fuel ih =>
    intro l hl
    cases l with
    | nil => simp [chunkModelsGo]
    | cons x xs =>
      simp only [chunkModelsGo]
      rw [if_neg (by omega), List.flatten_cons,
        ih ((x :: xs).drop k) (by simp at hl ⊢; omega)]
      exact List.take_append_drop k (x :: xs)

theorem chunkModels_flatten (k : Nat) (hk : 0 < k) (l : List Model) :
    (chunkModels k l).flatten = l :=
  chunkModelsGo_flatten k hk l.length l le_rfl

theorem chunkModelsGo_mem (k : Nat) (hk : 0 < k) (fuel : Nat) :
    ∀ (l : List Model), l.length ≤ fuel → ∀ w ∈ chunkModelsGo k fuel l,
      w ≠ [] ∧ w.length ≤ k := by
  induction fuel with
  | zero =>
    intro l hl w hw
    cases l with
    | nil => simp [chunkModelsGo] at hw
    | cons x xs => simp at hl
  | succ fuel ih =>
    intro l hl w hw
    cases l with
    | nil => simp [chunkModelsGo] at hw
    | cons x xs =>
      simp only [chunkModelsGo] at hw
      rw [if_neg (by omega)] at hw
      rcases List.mem_cons.mp hw with rfl | hw'
      · refine ⟨?_, by rw [List.length_take]; exact min_le_left _ _⟩
        intro hc
        rcases List.take_eq_nil_iff.mp hc with h | h
        · omega
        · exact List.noConfusion h
      · exact ih ((x :: xs).drop k) (by simp at hl ⊢; omega) w hw'

theorem chunkModels_mem (k : Nat) (hk : 0 < k) (l : List Model) :
    ∀ w ∈ chunkModels k l, w ≠ [] ∧ w.length ≤ k :=
  chunkModelsGo_mem k hk l.length l le_rfl

theorem chunkModelsGo_dropLast (k : Nat) (hk : 0 < k) (fuel : Nat) :
    ∀ (l : List Model), l.length ≤ fuel →
      ∀ w ∈ (chunkModelsGo k fuel l).dropLast, w.length = k := by
  induction fuel with
  | zero =>
    intro l hl w hw
    cases l with
    | nil => simp [chunkModelsGo] at hw
    | cons x xs => simp at hl
  | succ fuel ih =>
    intro l hl w hw
    cases l with
    | nil => simp [chunkModelsGo] at hw
    | cons x xs =>
      simp only [chunkModelsGo] at hw
      rw [if_neg (by omega)] at hw
      cases hrec : chunkModelsGo k fuel ((x :: xs).drop k) with
      | nil =>
        rw [hrec] at hw
        simp at hw
      | cons c cs =>
        rw [hrec, dropLast_cons2M] at hw
        rcases List.mem_cons.mp hw with rfl | hw'
        · have hdk : (x :: xs).drop k ≠ [] := by
            intro hnil
            rw [hnil] at hrec
            simp [chunkModelsGo] at hrec
          have hklen : k < (x :: xs).length := by
            have hd := List.length_pos.mpr hdk
            rw [List.length_drop] at hd
            omega
          rw [List.length_take]
          omega
        · rw [← hrec] at hw'
          exact ih ((x :: xs).drop k) (by simp at hl ⊢; omega) w hw'

theorem chunkModels_dropLast (k : Nat) (hk : 0 < k) (l : List Model) :
    ∀ w ∈ (chunkModels k l).dropLast, w.length = k :=
  chunkModelsGo_dropLast k hk l.length l le_rfl

theorem chunkWavesAux_map_resp (k : Nat) :
    ∀ (w : Nat) (cs : List (List Model)),
      (chunkWavesAux k w cs).map ResponseWave.respondingModels =
        cs.map (fun c => c.map Model.id)
  | _, [] => rfl
  | w, c :: cs => by
    simp only [chunkWavesAux, List.map_cons]
    rw [chunkWavesAux_map_resp k (w + 1) cs]

theorem chunkWavesAux_map_num (k : Nat) :
    ∀ (w : Nat) (cs : List (List Model)),
      (chunkWavesAux k w cs).map ResponseWave.waveNumber =
        List.range' w cs.length
  | _, [] => rfl
  | w, c :: cs => by
    simp only [chunkWavesAux, List.map_cons, List.length_cons]
    rw [chunkWavesAux_map_num k (w + 1) cs]
    rfl

theorem chunkWavesAux_mem (k : Nat) :
    ∀ (w : Nat) (cs : List (List Model)) (x : ResponseWave),
      x ∈ chunkWavesAux k w cs →
      ∃ c ∈ cs, x.respondingModels = c.map Model.id ∧ x.maxPerWave = k
  | w, [], x, hx => by simp [chunkWavesAux] at hx
  | w, c :: cs, x, hx => by
    simp only [chunkWavesAux] at hx
    rcases List.mem_cons.mp hx with rfl | hx'
    · exact ⟨c, List.mem_cons_self _ _, rfl, rfl⟩
    · obtain ⟨c', hc', he⟩ := chunkWavesAux_mem k (w + 1) cs x hx'
      exact ⟨c', List.mem_cons_of_mem _ hc', he⟩

theorem chunkWavesAux_mem_dropLast (k : Nat) :
    ∀ (w : Nat) (cs : List (List Model)) (x : ResponseWave),
      x ∈ (chunkWavesAux k w cs).dropLast →
      ∃ c ∈ cs.dropLast, x.respondingModels = c.map Model.id
  | w, [], x, hx => by simp [chunkWavesAux] at hx
  | w, [c], x, hx => by simp [chunkWavesAux] at hx
  | w, c :: c2 :: cs, x, hx => by
    simp only [chunkWavesAux] at hx
    rw [dropLast_cons2] at hx
    rcases List.mem_cons.mp hx with rfl | hx'
    · refine ⟨c, ?_, rfl⟩
      rw [dropLast_cons2M]
      exact List.mem_cons_self _ _
    · obtain ⟨c', hc', he⟩ := chunkWavesAux_mem_dropLast k (w + 1) (c2 :: cs) x hx'
      refine ⟨c', ?_, he⟩
      rw [dropLast_cons2M]
      exact List.mem_cons_of_mem _ hc'

/-- C9: with wave mode disabled or no active models, `buildResponseWaves`
returns exactly one wave holding all active models in original order; with
wave mode enabled in `priority` selection mode it chunks the input order
into consecutive waves — every wave is non-empty with at most `maxPerWave`
members, every wave except the last has exactly `maxPerWave` members, the
waves concatenate back to the input list, and waves are numbered 1, 2, …;
in particular five models with `maxPerWave = 2` yield
`[[p1, p2], [p3, p4], [p5]]`. -/
theorem C9_wave_chunking (r : Nat → Nat) (ms : List Model)
    (settings : ThrottleSettings) (idx : Nat)
    (hk : 0 < settings.maxPerWave) :
    (settings.enabled = false ∨ ms = [] →
      buildResponseWaves r ms settings idx =
        [⟨1, ms.map Model.id, ms.length, []⟩]) ∧
    (settings.enabled = true → settings.selectionMode = SelectionMode.priority →
      ms ≠ [] →
      ((buildResponseWaves r ms settings idx).map
          ResponseWave.respondingModels).flatten = ms.map Model.id ∧
      (∀ w ∈ buildResponseWaves r ms settings idx,
        w.respondingModels ≠ [] ∧
          w.respondingModels.length ≤ settings.maxPerWave ∧
          w.maxPerWave = settings.maxPerWave) ∧
      (∀ w ∈ (buildResponseWaves r ms settings idx).dropLast,
        w.respondingModels.length = settings.maxPerWave) ∧
      (buildResponseWaves r ms settings idx).map ResponseWave.waveNumber =
        List.range' 1 (chunkModels settings.maxPerWave ms).length) ∧
    (buildResponseWaves (fun v => v)
        [⟨"p1", [], []⟩, ⟨"p2", [], []⟩, ⟨"p3", [], []⟩, ⟨"p4", [], []⟩,
          ⟨"p5", [], []⟩]
        ⟨true, 2, 500, SelectionMode.priority, true, true⟩ 0).map
        ResponseWave.respondingModels =
      [["p1", "p2"], ["p3", "p4"], ["p5"]] := by
  refine ⟨?_, ?_, by decide⟩
  · intro hdis
    unfold buildResponseWaves
    rcases hdis with hdis | hdis
    · simp [hdis]
    · simp [hdis]
  · intro hen hmode hne
    have hbuild : buildResponseWaves r ms settings idx =
        chunkWaves settings.maxPerWave ms := by
      unfold buildResponseWaves
      rw [hen, hmode]
      simp [List.isEmpty_iff, hne]
    rw [hbuild]
    unfold chunkWaves
    refine ⟨?_, ?_, ?_, ?_⟩
    · rw [chunkWavesAux_map_resp]
      have hmj : ((chunkModels settings.maxPerWave ms).map
          (fun c => c.map Model.id)).flatten =
          ((chunkModels settings.maxPerWave ms).flatten).map Model.id := by
        simp
      rw [hmj, chunkModels_flatten settings.maxPerWave hk ms]
    · intro w hw
      obtain ⟨c, hc, hresp, hmax⟩ := chunkWavesAux_mem _ _ _ _ hw
      obtain ⟨hcne, hclen⟩ := chunkModels_mem settings.maxPerWave hk ms c hc
      refine ⟨?_, ?_, hmax⟩
      · rw [hresp]
        simpa using hcne
      · rw [hresp]
        simpa using hclen
    · intro w hw
      obtain ⟨c, hc, hresp⟩ := chunkWavesAux_mem_dropLast _ _ _ _ hw
      have hlen := chunkModels_dropLast settings.maxPerWave hk ms c hc
      rw [hresp]
      simpa using hlen
    · exact chunkWavesAux_map_num _ _ _

/-- Witness for C9: the single-wave result for disabled throttling and the
wave decomposition of the five-model example. -/
theorem C9_wave_chunking_witness :
    buildResponseWaves (fun v => v) [⟨"p1", [], []⟩]
      ⟨false, 2, 500, SelectionMode.priority, true, true⟩ 0 =
      [⟨1, ["p1"], 1, []⟩] ∧
    ((buildResponseWaves (fun v => v)
        [⟨"p1", [], []⟩, ⟨"p2", [], []⟩, ⟨"p3", [], []⟩, ⟨"p4", [], []⟩,
          ⟨"p5", [], []⟩]
        ⟨true, 2, 500, SelectionMode.priority, true, true⟩ 0).map
        ResponseWave.respondingModels).flatten =
      [⟨"p1", [], []⟩, ⟨"p2", [], []⟩, ⟨"p3", [], []⟩, ⟨"p4", [], []⟩,
        (⟨"p5", [], []⟩ : Model)].map Model.id :=
  ⟨(C9_wave_chunking (fun v => v) [⟨"p1", [], []⟩]
      ⟨false, 2, 500, SelectionMode.priority, true, true⟩ 0 (by decide)).1
      (Or.inl rfl),
   ((C9_wave_chunking (fun v => v)
      [⟨"p1", [], []⟩, ⟨"p2", [], []⟩, ⟨"p3", [], []⟩, ⟨"p4", [], []⟩,
        ⟨"p5", [], []⟩]
      ⟨true, 2, 500, SelectionMode.priority, true, true⟩ 0 (by decide)).2.1
      rfl rfl (by decide)).1⟩

/-! ## Claim C10 -/

/-- C10: `updateWaveStateAfterResponse` always removes the model's id from
`respondingModels` and leaves `currentWave` and `totalWaves` unchanged; for
a pass response (per `isPassResponse`, or when the `passed` flag is set) the
id is appended to `passedModels` and `waveContexts` and `completedModels`
are untouched; otherwise the id is appended to `completedModels` and exactly
one context digest — carrying that model's id — is appended to
`waveContexts`, with `passedModels` untouched. -/
theorem C10_wave_state_update (ws : WaveState) (modelId : String)
    (response : List Char) (model : Model) (passed : Bool) :
    (updateWaveStateAfterResponse ws modelId response model passed).respondingModels =
      ws.respondingModels.filter (fun id => id != modelId) ∧
    (updateWaveStateAfterResponse ws modelId response model passed).currentWave =
      ws.currentWave ∧
    (updateWaveStateAfterResponse ws modelId response model passed).totalWaves =
      ws.totalWaves ∧
    (passed = true ∨ isPassResponse response = true →
      (updateWaveStateAfterResponse ws modelId response model passed).passedModels =
        ws.passedModels ++ [modelId] ∧
      (updateWaveStateAfterResponse ws modelId response model passed).waveContexts =
        ws.waveContexts ∧
      (updateWaveStateAfterResponse ws modelId response model passed).completedModels =
        ws.completedModels) ∧
    (passed = false → isPassResponse response = false →
      (updateWaveStateAfterResponse ws modelId response model passed).completedModels =
        ws.completedModels ++ [modelId] ∧
      (updateWaveStateAfterResponse ws modelId response model passed).waveContexts =
        ws.waveContexts ++ [extractWaveContext response model] ∧
      (extractWaveContext response model).modelId = model.id ∧
      (updateWaveStateAfterResponse ws modelId response model passed).passedModels =
        ws.passedModels) := by
  unfold updateWaveStateAfterResponse
  by_cases hpass : (passed || isPassResponse response) = true
  · rw [if_pos hpass]
    refine ⟨rfl, rfl, rfl, fun _ => ⟨rfl, rfl, rfl⟩, ?_⟩
    intro hp hr
    rw [hp, hr] at hpass
    simp at hpass
  · rw [if_neg hpass]
    refine ⟨rfl, rfl, rfl, ?_, fun _ _ => ⟨rfl, rfl, rfl, rfl⟩⟩
    intro hor
    rcases hor with hp | hr
    · rw [hp] at hpass
      simp at hpass
    · rw [hr] at hpass
      simp at hpass

/-- Witness for C10: a concrete substantive (non-pass) response is appended
to `completedModels`. -/
theorem C10_wave_state_update_witness :
    (updateWaveStateAfterResponse ⟨1, 3, ["a", "b"], ["z"], [], []⟩ "a"
      ("great point, agreed".toList) ⟨"a", "A".toList, "A".toList⟩
      false).completedModels = ["z"] ++ ["a"] :=
  ((C10_wave_state_update ⟨1, 3, ["a", "b"], ["z"], [], []⟩ "a"
      ("great point, agreed".toList) ⟨"a", "A".toList, "A".toList⟩
      false).2.2.2.2 rfl (by decide)).1

/-! ## Claim C1 -/

/-- C1: for every engine state (hence every cooldown map), message history,
responder set and counter values, if the triggering message contains the
participant's mention tag as a whole word (case-insensitively) or a
broadcast `@here`/`@all` mention, and is not authored by the participant
itself, then `analyzeForResponse` answers `shouldRespond = true` with
`priority = 100`; a self-authored trigger always yields `{false, 0, 0}`. -/
theorem C1_mention_bypass (st : EngineState) (now rand : Nat) (model : Model)
    (messages : List Message) (latest : Message) (ams : List Model) :
    (latest.modelId ≠ some model.id →
      isMentionedB model latest.content = true →
      (analyzeForResponse st now rand model messages latest ams).shouldRespond = true ∧
      (analyzeForResponse st now rand model messages latest ams).priority = 100) ∧
    (latest.modelId = some model.id →
      analyzeForResponse st now rand model messages latest ams =
        ⟨false, 0, 0⟩) := by
  constructor
  · intro hself hm
    simp [analyzeForResponse, hself, hm]
  · intro hself
    simp [analyzeForResponse, hself]

/-- Witness for C1: a mentioned participant that is on cooldown (cooldown
map empty, `now` within 10 s of the default timestamp 0) still answers
`{shouldRespond := true, priority := 100}`. -/
theorem C1_mention_bypass_witness :
    (analyzeForResponse initialEngine 5 7
      ⟨"m1", "Claude".toList, "Claude".toList⟩ []
      ⟨"assistant", "I agree @claude, go on".toList, some "m2", 3⟩
      []).shouldRespond = true ∧
    (analyzeForResponse initialEngine 5 7
      ⟨"m1", "Claude".toList, "Claude".toList⟩ []
      ⟨"assistant", "I agree @claude, go on".toList, some "m2", 3⟩
      []).priority = 100 :=
  (C1_mention_bypass initialEngine 5 7
    ⟨"m1", "Claude".toList, "Claude".toList⟩ []
    ⟨"assistant", "I agree @claude, go on".toList, some "m2", 3⟩ []).1
    (by decide) (by decide)

/-! ## Claim C8 -/

/-- C8, counterexample: an assistant-authored trigger "hi" (no mention, no
question mark, no suppression in force) makes `analyzeForResponse` return
`{shouldRespond := false, delay := 1537, priority := 0}` — the delay is the
reading-time value, not 0, so the analyzer does not return exactly
`{false, 0, 0}` on fall-through. -/
theorem C8_counterexample_nonzero_delay :
    (⟨"assistant", "hi".toList, some "m2", 3⟩ : Message).modelId ≠ some "m1" ∧
    isMentionedB ⟨"m1", "Claude".toList, "Claude".toList⟩ ("hi".toList) = false ∧
    (⟨"assistant", "hi".toList, some "m2", 3⟩ : Message).role ≠ "user" ∧
    '?' ∉ ("hi".toList) ∧
    respondedAfterLastUser ⟨"m1", "Claude".toList, "Claude".toList⟩ [] = false ∧
    hasSummaryB [] = false ∧
    ¬(20000 - mapGetD initialEngine.cooldowns "m1" < 10000) ∧
    analyzeForResponse initialEngine 20000 7
      ⟨"m1", "Claude".toList, "Claude".toList⟩ []
      ⟨"assistant", "hi".toList, some "m2", 3⟩ [] = ⟨false, 1537, 0⟩ ∧
    analyzeForResponse initialEngine 20000 7
      ⟨"m1", "Claude".toList, "Claude".toList⟩ []
      ⟨"assistant", "hi".toList, some "m2", 3⟩ [] ≠ ⟨false, 0, 0⟩ := by
  decide

/-- C8, amended: on fall-through (not self-authored, not mentioned, not
user-authored, no question mark, and not suppressed by the prior-response,
summary-keyword or cooldown rules) the analyzer returns `shouldRespond =
false` and `priority = 0`, but with `delay` equal to the reading-time model
`min(contentLength × 15, 2000) + 1500 + random()×2000` — the same delay
value reported for affirmative decisions; it is meaningful only when
`shouldRespond` is true. -/
theorem C8_fallthrough_decision (st : EngineState) (now rand : Nat)
    (model : Model) (messages : List Message) (latest : Message)
    (ams : List Model)
    (hself : latest.modelId ≠ some model.id)
    (hm : isMentionedB model latest.content = false)
    (hprior : respondedAfterLastUser model messages = false)
    (hsum : hasSummaryB messages = false)
    (hcd : ¬(now - mapGetD st.cooldowns model.id < 10000))
    (hrole : latest.role ≠ "user")
    (hq : '?' ∉ latest.content) :
    analyzeForResponse st now rand model messages latest ams =
      ⟨false, 1500 + rand + readingTimeOf latest.content, 0⟩ := by
  simp [analyzeForResponse, hself, hm, hprior, hsum, hcd, hrole, hq]

/-- Witness for C8: the fall-through result on a concrete trigger. -/
theorem C8_fallthrough_decision_witness :
    analyzeForResponse initialEngine 20000 7
      ⟨"m1", "Claude".toList, "Claude".toList⟩ []
      ⟨"assistant", "hey".toList, some "m2", 3⟩ [] = ⟨false, 1552, 0⟩ :=
  C8_fallthrough_decision initialEngine 20000 7
    ⟨"m1", "Claude".toList, "Claude".toList⟩ []
    ⟨"assistant", "hey".toList, some "m2", 3⟩ []
    (by decide) (by decide) (by decide) (by decide) (by decide) (by decide)
    (by decide)

/-! ## Claim C7 -/

/-- C7, counterexample: a completed mention-bypass (priority-100) turn does
increment `consecutiveAIResponses` — after queueing "a" at priority 100,
firing its deferred check and completing its generation, the counter is 1,
not 0. -/
theorem C7_counterexample_bypass_increment :
    (execTrace [Event.queueEv "a" 0 100, Event.fireEv 0,
      Event.completeEv "a" 5]).consecutiveAIResponses = 1 ∧
    (execTrace [Event.queueEv "a" 0 100, Event.fireEv 0,
      Event.completeEv "a" 5]).consecutiveAIResponses ≠ 0 := by
  decide

theorem deferredCheck_consec (st : EngineState) (id : String) (p : Nat) :
    (deferredCheck st id p).consecutiveAIResponses =
      st.consecutiveAIResponses := by
  unfold deferredCheck commitResponse triggerResponse
  split
  · rfl
  · split
    · rfl
    · split
      · rfl
      · split <;> rfl

theorem completeDequeue_consec (st1 : EngineState) (next : QueueEntry)
    (rest : List QueueEntry) :
    (completeDequeue st1 next rest).consecutiveAIResponses =
      st1.consecutiveAIResponses := by
  unfold completeDequeue triggerResponse
  split
  · rfl
  · split <;> rfl

/-- C7, amended: `consecutiveAIResponses` is reset to 0 exactly by
`onUserMessage` (which also unconditionally empties `respondersThisMessage`)
or by `reset`, is incremented exactly once by every `completeResponse` —
including completions of mention-bypass (priority-100) turns — and is left
unchanged by every other engine operation. -/
theorem C7_consecutive_counter_discipline (st : EngineState) (id : String)
    (d p now i n : Nat) :
    (queueResponse st id d p).consecutiveAIResponses =
      st.consecutiveAIResponses ∧
    (fireTimer st i).consecutiveAIResponses = st.consecutiveAIResponses ∧
    (completeResponse st id now).consecutiveAIResponses =
      st.consecutiveAIResponses + 1 ∧
    (onUserMessageE st).consecutiveAIResponses = 0 ∧
    (onUserMessageE st).respondersThisMessage = [] ∧
    (resetEngine st).consecutiveAIResponses = 0 ∧
    (resetRespondersForNewMessage st).consecutiveAIResponses =
      st.consecutiveAIResponses ∧
    (setMaxConsecutiveAI st n).consecutiveAIResponses =
      st.consecutiveAIResponses ∧
    (setMaxRespondersPerMessage st n).consecutiveAIResponses =
      st.consecutiveAIResponses := by
  refine ⟨?_, ?_, ?_, rfl, rfl, rfl, rfl, rfl, rfl⟩
  · unfold queueResponse
    split <;> rfl
  · unfold fireTimer
    split
    · rfl
    · exact deferredCheck_consec _ _ _
  · unfold completeResponse
    split
    · rfl
    · rw [completeDequeue_consec]
      rfl

end GrpChat
